import Mathlib

/-!
Verification of the entity reconciliation engine
(`companion/lib/Instance/EntityManager/EntityManager.ts`).

The shallow embedding below translates the `EntityManager` class into pure
Lean functions.  The mutable `Map<string, EntityWrapper>` becomes an
association list with JS `Map` semantics (`mapLookup` / `mapSet` /
`mapDelete`), `WeakRef.deref()` becomes an `Option Entity` field on the
wrapper, and the two asynchronous continuations of the `upgradeEntities`
RPC (the `.then` and `.catch` handlers of `#debounceProcessPending`) become
the standalone functions `processUpgradeReply` and `processUpgradeFailure`
applied to the batch snapshot taken at dispatch time.
-/

/-- `EntityState` from EntityManager.ts. -/
inductive EntityState where
  | UNLOADED
  | UPGRADING
  | UPGRADING_INVALIDATED
  | READY
  | PENDING_DELETE
deriving DecidableEq, Repr

/-- `EntityModelType` (shared model): the two entity kinds the engine manages. -/
inductive EntityModelType where
  | action
  | feedback
deriving DecidableEq, Repr

/-- A JavaScript value as it appears in an options object.  `undef` models
the JS `undefined` value (present when a key is read that is absent, and
storable under a key). -/
inductive JsValue where
  | undef
  | jnull
  | str (s : String)
  | num (n : Int)
  | bool (b : Bool)
deriving DecidableEq, Repr

/-- JS `String(v)` stringification, as used by `String(options[field.id])`. -/
def jsToString : JsValue → String
  | .undef => "undefined"
  | .jnull => "null"
  | .str s => s
  | .num n => toString n
  | .bool b => if b then "true" else "false"

/-- Generic association list lookup with JS `Map.get` / object-key semantics:
first (and, for lists built by `mapSet`, only) binding wins. -/
def mapLookup {α : Type} : List (String × α) → String → Option α
  | [], _ => none
  | (k0, v) :: rest, k => if k0 = k then some v else mapLookup rest k

/-- JS `Map.set` / property assignment: overwrite the existing binding in
place (keeping its position), else append a new binding at the end. -/
def mapSet {α : Type} : List (String × α) → String → α → List (String × α)
  | [], k, v => [(k, v)]
  | (k0, v0) :: rest, k, v => if k0 = k then (k, v) :: rest else (k0, v0) :: mapSet rest k v

/-- JS `Map.delete`: remove the binding for the key. -/
def mapDelete {α : Type} : List (String × α) → String → List (String × α)
  | [], _ => []
  | (k0, v0) :: rest, k => if k0 = k then rest else (k0, v0) :: mapDelete rest k

/-- An `OptionsObject`: a JS object holding option values keyed by field id. -/
abbrev OptionsObject := List (String × JsValue)

/-- Reading `options[k]`: JS yields `undefined` for an absent key. -/
def getOpt (o : OptionsObject) (k : String) : JsValue :=
  (mapLookup o k).getD JsValue.undef

/-- One option field of a `ClientEntityDefinition`: its id, its `type`
string and its `useVariables` flag. -/
structure EntityField where
  id : String
  ftype : String
  useVariables : Bool
deriving DecidableEq, Repr

/-- The slice of `ClientEntityDefinition` consulted by the engine. -/
structure ClientEntityDefinition where
  options : List EntityField
  optionsToIgnoreForSubscribe : List String
  hasLifecycleFunctions : Bool
deriving DecidableEq, Repr

/-- Result of `parser.parseVariables(text)`. -/
structure ParseResult where
  text : String
  variableIds : List String
deriving DecidableEq, Repr

/-- A control as seen through `ControlsController.getControl`. -/
structure ControlInfo where
  supportsEntities : Bool
deriving DecidableEq, Repr

/-- The slice of `ControlsController` the engine uses:
`createVariablesAndExpressionParser(controlId, null).parseVariables(text)`
becomes `parseVariables controlId text`, and `getControl`. -/
structure ControlsModel where
  parseVariables : String → String → ParseResult
  getControl : String → Option ControlInfo

/-- A `ControlEntityInstance` as observed by the engine: its id, type,
`upgradeIndex`, the definition returned by `getEntityDefinition()`, and the
options carried by `asEntityModel(false)`. -/
structure Entity where
  id : String
  etype : EntityModelType
  upgradeIndex : Option Nat
  definition : Option ClientEntityDefinition
  options : OptionsObject
deriving DecidableEq, Repr

/-- `EntityWrapper` from EntityManager.ts.  `entity` is the result of
`WeakRef.deref()`: `none` means the entity has been garbage collected. -/
structure EntityWrapper where
  wrapperId : Nat
  entity : Option Entity
  controlId : String
  state : EntityState
  lastReferencedVariableIds : Option (List String)
deriving DecidableEq, Repr

/-- The `#entities` map. -/
abbrev EntityMap := List (String × EntityWrapper)

/-! ### Association-list lemmas -/

@[simp]
theorem mapLookup_set_self {α : Type} (m : List (String × α)) (k : String) (v : α) :
    mapLookup (mapSet m k v) k = some v := by
  induction m with
  | nil => simp [mapSet, mapLookup]
  | cons p rest ih =>
    obtain ⟨k0, v0⟩ := p
    by_cases h : k0 = k <;> simp [mapSet, mapLookup, h, ih]

theorem mapLookup_set_ne {α : Type} (m : List (String × α)) (k0 k : String) (v : α)
    (h : k ≠ k0) : mapLookup (mapSet m k0 v) k = mapLookup m k := by
  induction m with
  | nil => simp [mapSet, mapLookup, Ne.symm h]
  | cons p rest ih =>
    obtain ⟨k1, v1⟩ := p
    by_cases h1 : k1 = k0
    · subst h1
      simp [mapSet, mapLookup, Ne.symm h]
    · by_cases h2 : k1 = k <;> simp [mapSet, mapLookup, h1, h2, h, ih]

theorem mapLookup_delete_ne {α : Type} (m : List (String × α)) (k0 k : String)
    (h : k ≠ k0) : mapLookup (mapDelete m k0) k = mapLookup m k := by
  induction m with
  | nil => simp [mapDelete]
  | cons p rest ih =>
    obtain ⟨k1, v1⟩ := p
    by_cases h1 : k1 = k0
    · subst h1
      simp [mapDelete, mapLookup, Ne.symm h]
    · by_cases h2 : k1 = k <;> simp [mapDelete, mapLookup, h1, h2, h, ih]

theorem mapLookup_mem {α : Type} (m : List (String × α)) (k : String) (v : α)
    (h : mapLookup m k = some v) : (k, v) ∈ m := by
  induction m with
  | nil => simp [mapLookup] at h
  | cons p rest ih =>
    obtain ⟨k0, v0⟩ := p
    by_cases h0 : k0 = k
    · subst h0
      simp [mapLookup] at h
      simp [h]
    · simp [mapLookup, h0] at h
      exact List.mem_cons_of_mem _ (ih h)

theorem mapLookup_eq_none_of_notmem {α : Type} (m : List (String × α)) (k : String)
    (h : k ∉ m.map Prod.fst) : mapLookup m k = none := by
  induction m with
  | nil => simp [mapLookup]
  | cons p rest ih =>
    obtain ⟨k0, v0⟩ := p
    simp only [List.map_cons, List.mem_cons, not_or] at h
    simp [mapLookup, Ne.symm h.1, ih h.2]

theorem mem_keys_mapSet {α : Type} (m : List (String × α)) (k0 k : String) (v : α) :
    k ∈ (mapSet m k0 v).map Prod.fst ↔ k = k0 ∨ k ∈ m.map Prod.fst := by
  induction m with
  | nil => simp [mapSet]
  | cons p rest ih =>
    obtain ⟨k1, v1⟩ := p
    by_cases h1 : k1 = k0
    · subst h1
      simp [mapSet]
    · simp only [mapSet, h1, if_false, List.map_cons, List.mem_cons, ih]
      tauto

/-! ### `parseOptionsObject` (EntityManager.ts lines 376-414) -/

/-- One iteration of the `for (const field of entityDefinition.options)`
loop: the accumulator holds the `parsedOptions` object and the
`referencedVariableIds` set (modelled as a list; membership is the set). -/
def stepField (cc : ControlsModel) (controlId : String) (d : ClientEntityDefinition)
    (options : OptionsObject) (acc : OptionsObject × List String) (f : EntityField) :
    OptionsObject × List String :=
  if f.ftype ≠ "textinput" ∨ f.useVariables = false then
    (mapSet acc.1 f.id (getOpt options f.id), acc.2)
  else
    (mapSet acc.1 f.id (.str (cc.parseVariables controlId (jsToString (getOpt options f.id))).text),
     if f.id ∈ d.optionsToIgnoreForSubscribe then acc.2
     else acc.2 ++ (cc.parseVariables controlId (jsToString (getOpt options f.id))).variableIds)

/-- The loop over the definition's fields. -/
def parseFieldsLoop (cc : ControlsModel) (controlId : String) (d : ClientEntityDefinition)
    (options : OptionsObject) :
    List EntityField → (OptionsObject × List String) → OptionsObject × List String
  | [], acc => acc
  | f :: rest, acc =>
    parseFieldsLoop cc controlId d options rest (stepField cc controlId d options acc f)

/-- `EntityManager.parseOptionsObject`.  With an unknown definition the
input options are returned unchanged with an empty variable set; otherwise
the declared fields are rebuilt into a fresh object. -/
def parseOptionsObject (cc : ControlsModel) (entityDefinition : Option ClientEntityDefinition)
    (options : OptionsObject) (controlId : String) : OptionsObject × List String :=
  match entityDefinition with
  | none => (options, [])
  | some d => parseFieldsLoop cc controlId d options d.options ([], [])

/-! ### Upgrade replies (EntityManager.ts lines 185-273)

`#debounceProcessPending` snapshots `entityIdsInThisBatch : Map entityId →
wrapperId` before dispatching `upgradeEntities`.  The `.then` handler
(success) and `.catch` handler (failure) walk that snapshot against the
possibly-mutated `#entities` map.  They are modelled as pure functions of
the snapshot, the reply and the map. -/

/-- An entry of the `SomeReplaceableEntityModel[]` reply array. -/
structure Replacement where
  id : String
  options : OptionsObject
deriving DecidableEq, Repr

/-- `new Map(upgraded.map((act) => [act.id, act]))`: with duplicate ids the
last entry wins, as in JS `Map` construction. -/
def replLookup (upgraded : List Replacement) (k : String) : Option Replacement :=
  upgraded.foldl (fun acc r => if r.id = k then some r else acc) none

/-- A call of `control.entities.entityReplace(newEntityProps)` made by the
success handler, tagged with the batch entity id that triggered it. -/
structure Delivery where
  batchEntityId : String
  controlId : String
  model : Replacement
deriving DecidableEq, Repr

/-- One iteration of the success handler's loop over the batch snapshot
(lines 195-251): look up the record, discard on a missing or replaced
wrapper, drop the record when the weak ref is dead, then branch on state.
Returns the new map and the `entityReplace` call made, if any. -/
def replyStep (cc : ControlsModel) (upgraded : List Replacement) (eid : String) (wid : Nat)
    (m : EntityMap) : EntityMap × Option Delivery :=
  match mapLookup m eid with
  | none => (m, none)
  | some w =>
    if w.wrapperId ≠ wid then (m, none)
    else
      match w.entity with
      | none => (mapDelete m eid, none)
      | some e =>
        match w.state with
        | .UPGRADING_INVALIDATED => (mapSet m eid { w with state := .UNLOADED }, none)
        | .UPGRADING =>
          match cc.getControl w.controlId with
          | none => (m, none)
          | some c =>
            if c.supportsEntities then
              match replLookup upgraded e.id with
              | some r => (m, some ⟨eid, w.controlId, r⟩)
              | none => (m, none)
            else (m, none)
        | _ => (m, none)

/-- The success handler's loop over the whole batch snapshot. -/
def processReplyLoop (cc : ControlsModel) (upgraded : List Replacement) :
    List (String × Nat) → EntityMap → EntityMap × List Delivery
  | [], m => (m, [])
  | (eid, wid) :: rest, m =>
    ((processReplyLoop cc upgraded rest (replyStep cc upgraded eid wid m).1).1,
     (replyStep cc upgraded eid wid m).2.toList ++
       (processReplyLoop cc upgraded rest (replyStep cc upgraded eid wid m).1).2)

/-- The `.then` continuation of the `upgradeEntities` RPC: it first
re-checks the `#ready` gate (line 188) and otherwise reconciles the batch
snapshot against the current map. -/
def processUpgradeReply (cc : ControlsModel) (ready : Bool) (upgraded : List Replacement)
    (batch : List (String × Nat)) (m : EntityMap) : EntityMap × List Delivery :=
  if ready then processReplyLoop cc upgraded batch m else (m, [])

/-- One iteration of the `.catch` handler's loop (lines 259-269): no gate
check and no weak-ref check; `Upgrading` pretends success and becomes
`Ready`, `UpgradingInvalidated` becomes `Unloaded`. -/
def failStep (eid : String) (wid : Nat) (m : EntityMap) : EntityMap :=
  match mapLookup m eid with
  | none => m
  | some w =>
    if w.wrapperId ≠ wid then m
    else
      match w.state with
      | .UPGRADING => mapSet m eid { w with state := .READY }
      | .UPGRADING_INVALIDATED => mapSet m eid { w with state := .UNLOADED }
      | _ => m

/-- The `.catch` continuation of the `upgradeEntities` RPC. -/
def processUpgradeFailure : List (String × Nat) → EntityMap → EntityMap
  | [], m => m
  | (eid, wid) :: rest, m => processUpgradeFailure rest (failStep eid wid m)

/-! ### Public API record edits (EntityManager.ts lines 305-488) -/

/-- Per-record effect of `resendFeedbacks` (lines 345-370): only records
whose entity derefs to a Feedback are touched. -/
def resendFbWrapper (w : EntityWrapper) : EntityWrapper :=
  match w.entity with
  | none => w
  | some e =>
    if e.etype ≠ EntityModelType.feedback then w
    else
      match w.state with
      | .READY => { w with state := .UNLOADED }
      | .UPGRADING => { w with state := .UPGRADING_INVALIDATED }
      | _ => w

/-- The `resendFeedbacks` loop over the map.  The returned `Bool` records
whether `#debounceProcessPending()` is poked afterwards: the source pokes
unconditionally (line 369). -/
def resendFeedbacksFn (m : EntityMap) : EntityMap × Bool :=
  (m.map (fun p => (p.1, resendFbWrapper p.2)), true)

/-- Per-record effect of `onVariablesChanged(variableIds)` (lines 420-450).
The returned `Bool` is this record's contribution to `anyInvalidated`. -/
def invalidateForVars (variableIds : List String) (w : EntityWrapper) :
    EntityWrapper × Bool :=
  if w.state = .UNLOADED ∨ w.state = .UPGRADING_INVALIDATED ∨
      w.state = .UPGRADING ∨ w.state = .PENDING_DELETE then (w, false)
  else
    match w.lastReferencedVariableIds with
    | none => (w, false)
    | some vs =>
      if vs.isEmpty then (w, false)
      else if variableIds.all (fun v => !(vs.contains v)) then (w, false)
      else ({ w with state := .UNLOADED }, true)

/-- `onVariablesChanged` over the map; the `Bool` is `anyInvalidated`,
which gates the poke (line 449). -/
def onVariablesChangedFn (variableIds : List String) : EntityMap → EntityMap × Bool
  | [] => ([], false)
  | (k, w) :: rest =>
    ((k, (invalidateForVars variableIds w).1) :: (onVariablesChangedFn variableIds rest).1,
     (invalidateForVars variableIds w).2 || (onVariablesChangedFn variableIds rest).2)

/-- Per-record effect of `onEntityDefinitionsChanged(entityType)`
(lines 457-488). -/
def invalidateForDefs (entityType : EntityModelType) (w : EntityWrapper) :
    EntityWrapper × Bool :=
  match w.entity with
  | none => (w, false)
  | some e =>
    if e.etype ≠ entityType then (w, false)
    else
      match w.state with
      | .READY => ({ w with state := .UNLOADED }, true)
      | .UPGRADING => ({ w with state := .UPGRADING_INVALIDATED }, true)
      | _ => (w, false)

/-- `onEntityDefinitionsChanged` over the map; the `Bool` is
`anyInvalidated`, which gates the poke (line 487). -/
def onEntityDefinitionsChangedFn (entityType : EntityModelType) :
    EntityMap → EntityMap × Bool
  | [] => ([], false)
  | (k, w) :: rest =>
    ((k, (invalidateForDefs entityType w).1) ::
        (onEntityDefinitionsChangedFn entityType rest).1,
     (invalidateForDefs entityType w).2 ||
       (onEntityDefinitionsChangedFn entityType rest).2)

/-! ### The drain pass (EntityManager.ts lines 82-282) -/

/-- A `delete` or `update` entry of the `updatedEntities` work list. -/
inductive EntityForUpdate where
  | update (controlId : String) (entityId : String) (entityModel : Entity)
      (parsedOptions : OptionsObject)
  | delete (controlId : String) (entityId : String) (entityType : EntityModelType)
deriving DecidableEq, Repr

/-- An entry of the `upgradeEntities` work list. -/
structure EntityForUpgrade where
  controlId : String
  entityModel : Entity
deriving DecidableEq, Repr

/-- An RPC dispatched to the module by the drain pass. -/
inductive RPC where
  | updateEntities (items : List EntityForUpdate)
  | upgradeEntities (items : List EntityForUpgrade) (currentUpgradeIndex : Nat)
deriving DecidableEq, Repr

/-- Everything one drain pass accumulates: the surviving records and the
`updatedEntities`, `upgradeEntities` and `entityIdsInThisBatch` lists. -/
structure DrainAcc where
  entities : EntityMap
  updates : List EntityForUpdate
  upgrades : List EntityForUpgrade
  batchIds : List (String × Nat)
deriving DecidableEq, Repr

/-- Classification of one record by the drain loop (lines 103-174). -/
def drainWrapper (cc : ControlsModel) (idx : Nat) (eid : String) (w : EntityWrapper) :
    DrainAcc :=
  match w.state with
  | .UNLOADED =>
    match w.entity with
    | none => ⟨[], [], [], []⟩
    | some e =>
      if e.upgradeIndex = none ∨ e.upgradeIndex = some idx then
        match e.definition with
        | none => ⟨[(eid, { w with state := .READY })], [], [], []⟩
        | some d =>
          if d.hasLifecycleFunctions = false then
            ⟨[(eid, { w with state := .READY })], [], [], []⟩
          else
            ⟨[(eid, { w with
                      state := .READY,
                      lastReferencedVariableIds :=
                        some (parseOptionsObject cc (some d) e.options w.controlId).2 })],
             [.update w.controlId e.id e (parseOptionsObject cc (some d) e.options w.controlId).1],
             [], []⟩
      else
        ⟨[(eid, { w with state := .UPGRADING })], [], [⟨w.controlId, e⟩],
         [(e.id, w.wrapperId)]⟩
  | .PENDING_DELETE =>
    match w.entity with
    | none => ⟨[], [], [], []⟩
    | some e => ⟨[], [.delete w.controlId e.id e.etype], [], []⟩
  | _ => ⟨[(eid, w)], [], [], []⟩

/-- The full drain loop over the record map, in iteration order. -/
def drainEntities (cc : ControlsModel) (idx : Nat) : List (String × EntityWrapper) → DrainAcc
  | [] => ⟨[], [], [], []⟩
  | (eid, w) :: rest =>
    ⟨(drainWrapper cc idx eid w).entities ++ (drainEntities cc idx rest).entities,
     (drainWrapper cc idx eid w).updates ++ (drainEntities cc idx rest).updates,
     (drainWrapper cc idx eid w).upgrades ++ (drainEntities cc idx rest).upgrades,
     (drainWrapper cc idx eid w).batchIds ++ (drainEntities cc idx rest).batchIds⟩

/-! ### The engine state and its operations -/

/-- The mutable fields of `EntityManager`.  `nextWrapperId` models the
freshness of `nanoid()`: each `trackEntity` consumes a new wrapper id. -/
structure EMState where
  entities : EntityMap
  ready : Bool
  currentUpgradeIndex : Nat
  nextWrapperId : Nat
deriving DecidableEq, Repr

/-- `trackEntity` (lines 310-322): insert-or-replace with a fresh wrapper
id, state reset to `UNLOADED`, no `lastReferencedVariableIds`. -/
def trackEntityFn (s : EMState) (e : Entity) (controlId : String) : EMState :=
  { s with
    entities := mapSet s.entities e.id ⟨s.nextWrapperId, some e, controlId, .UNLOADED, none⟩,
    nextWrapperId := s.nextWrapperId + 1 }

/-- `forgetEntity` (lines 328-338): unknown ids are a no-op; otherwise the
record is marked `PENDING_DELETE`. -/
def forgetEntityFn (s : EMState) (eid : String) : EMState :=
  match mapLookup s.entities eid with
  | none => s
  | some w => { s with entities := mapSet s.entities eid { w with state := .PENDING_DELETE } }

/-- `start` (lines 288-293): open the gate and record the schema version. -/
def startFn (s : EMState) (idx : Nat) : EMState :=
  { s with ready := true, currentUpgradeIndex := idx }

/-- `destroy` (lines 299-303): clear all records and close the gate. -/
def destroyFn (s : EMState) : EMState :=
  { s with entities := [], ready := false }

/-- The operations that may occur between `start`/`destroy` calls: the five
record-editing public API calls plus a scheduler tick (the debounced
execution of `#debounceProcessPending`). -/
inductive EMOp where
  | track (e : Entity) (controlId : String)
  | forget (eid : String)
  | resendFb
  | varsChanged (ids : List String)
  | defsChanged (ty : EntityModelType)
  | tick
deriving DecidableEq, Repr

/-- One operation step.  Only a tick can emit RPCs, and its body returns
immediately when the `#ready` gate is closed (line 84); the drain emits
`updateEntities` and then `upgradeEntities`, each only when its work list
is non-empty (lines 177, 184). -/
def emStep (cc : ControlsModel) (s : EMState) : EMOp → EMState × List RPC
  | .track e controlId => (trackEntityFn s e controlId, [])
  | .forget eid => (forgetEntityFn s eid, [])
  | .resendFb => ({ s with entities := (resendFeedbacksFn s.entities).1 }, [])
  | .varsChanged ids => ({ s with entities := (onVariablesChangedFn ids s.entities).1 }, [])
  | .defsChanged ty =>
    ({ s with entities := (onEntityDefinitionsChangedFn ty s.entities).1 }, [])
  | .tick =>
    if s.ready = false then (s, [])
    else
      ({ s with entities := (drainEntities cc s.currentUpgradeIndex s.entities).entities },
       (if (drainEntities cc s.currentUpgradeIndex s.entities).updates = [] then []
        else [RPC.updateEntities (drainEntities cc s.currentUpgradeIndex s.entities).updates]) ++
       (if (drainEntities cc s.currentUpgradeIndex s.entities).upgrades = [] then []
        else [RPC.upgradeEntities (drainEntities cc s.currentUpgradeIndex s.entities).upgrades
                s.currentUpgradeIndex]))

/-- Run a sequence of operations, accumulating the emitted RPCs. -/
def emRun (cc : ControlsModel) (s : EMState) : List EMOp → EMState × List RPC
  | [] => (s, [])
  | op :: rest =>
    ((emRun cc (emStep cc s op).1 rest).1,
     (emStep cc s op).2 ++ (emRun cc (emStep cc s op).1 rest).2)

/-! ### Concrete fixtures used by witnesses and counterexamples -/

/-- A concrete controls model: the variable parser echoes its input and
reports variable `v1`; every control exists and supports entities. -/
def ccFix : ControlsModel := ⟨fun _ t => ⟨t, ["v1"]⟩, fun _ => some ⟨true⟩⟩

/-- A stale action entity (saved against upgrade index 1). -/
def entStale : Entity := ⟨"a", .action, some 1, none, []⟩

/-- A record whose upgrade is in flight. -/
def wUpg : EntityWrapper := ⟨5, some entStale, "c1", .UPGRADING, none⟩

/-- A record invalidated while its upgrade is in flight. -/
def wInv : EntityWrapper := ⟨5, some entStale, "c1", .UPGRADING_INVALIDATED, none⟩

/-- An invalidated in-flight record whose entity has been reclaimed. -/
def wGone : EntityWrapper := ⟨5, none, "c1", .UPGRADING_INVALIDATED, none⟩

/-- A reply entry for entity `a`. -/
def replA : Replacement := ⟨"a", []⟩

/-- A definition with a plain field, a variable text field, and a variable
text field listed in `optionsToIgnoreForSubscribe`. -/
def dFix : ClientEntityDefinition :=
  ⟨[⟨"num", "number", false⟩, ⟨"label", "textinput", true⟩, ⟨"secret", "textinput", true⟩],
   ["secret"], true⟩

/-- Raw options: `num` and `label` set, `junk` undeclared, `secret` absent. -/
def optsFix : OptionsObject := [("num", .num 3), ("label", .str "hi"), ("junk", .bool true)]

example : (parseOptionsObject ccFix (some dFix) optsFix "c1").1 =
    [("num", .num 3), ("label", .str "hi"), ("secret", .str "undefined")] := by decide
example : (parseOptionsObject ccFix (some dFix) optsFix "c1").2 = ["v1"] := by decide
example : processUpgradeReply ccFix true [replA] [("a", 5)] [("a", wUpg)] =
    ([("a", wUpg)], [⟨"a", "c1", replA⟩]) := by decide
example : processUpgradeReply ccFix true [replA] [("a", 5)] [("a", wInv)] =
    ([("a", { wInv with state := .UNLOADED })], []) := by decide
example : processUpgradeReply ccFix true [replA] [("a", 5)] [("a", wGone)] = ([], []) := by decide
example : processUpgradeFailure [("a", 5)] [("a", wUpg)] =
    [("a", { wUpg with state := .READY })] := by decide
example : resendFeedbacksFn [] = ([], true) := by decide

/-! ### Lemmas about the option parser loop -/

theorem stepField_fst (cc : ControlsModel) (cid : String) (d : ClientEntityDefinition)
    (opts : OptionsObject) (acc : OptionsObject × List String) (f : EntityField) :
    (stepField cc cid d opts acc f).1 = mapSet acc.1 f.id
      (if f.ftype ≠ "textinput" ∨ f.useVariables = false then getOpt opts f.id
       else .str (cc.parseVariables cid (jsToString (getOpt opts f.id))).text) := by
  unfold stepField
  by_cases h : f.ftype ≠ "textinput" ∨ f.useVariables = false <;> simp [h]

theorem stepField_snd_mem (cc : ControlsModel) (cid : String) (d : ClientEntityDefinition)
    (opts : OptionsObject) (acc : OptionsObject × List String) (f : EntityField) (v : String) :
    v ∈ (stepField cc cid d opts acc f).2 ↔
      v ∈ acc.2 ∨ (f.ftype = "textinput" ∧ f.useVariables = true ∧
        f.id ∉ d.optionsToIgnoreForSubscribe ∧
        v ∈ (cc.parseVariables cid (jsToString (getOpt opts f.id))).variableIds) := by
  unfold stepField
  by_cases h : f.ftype ≠ "textinput" ∨ f.useVariables = false
  · simp only [h, if_true, if_pos]
    constructor
    · exact Or.inl
    · rintro (hv | ⟨hf, hu, _, _⟩)
      · exact hv
      · rcases h with h | h
        · exact absurd hf h
        · rw [hu] at h
          exact absurd h (by simp)
  · push_neg at h
    obtain ⟨hf, hu⟩ := h
    have hu2 : f.useVariables = true := by
      cases hb : f.useVariables
      · exact absurd hb hu
      · rfl
    by_cases hig : f.id ∈ d.optionsToIgnoreForSubscribe
    · simp [hf, hu2, hig]
    · simp [hf, hu2, hig, List.mem_append]

theorem parseFieldsLoop_lookup_notmem (cc : ControlsModel) (cid : String)
    (d : ClientEntityDefinition) (opts : OptionsObject) :
    ∀ (fields : List EntityField) (acc : OptionsObject × List String) (k : String),
      k ∉ fields.map EntityField.id →
      mapLookup (parseFieldsLoop cc cid d opts fields acc).1 k = mapLookup acc.1 k := by
  intro fields
  induction fields with
  | nil => intro acc k _; rfl
  | cons f rest ih =>
    intro acc k hk
    simp only [List.map_cons, List.mem_cons, not_or] at hk
    simp only [parseFieldsLoop]
    rw [ih _ k hk.2, stepField_fst, mapLookup_set_ne _ _ _ _ hk.1]

theorem parseFieldsLoop_keys (cc : ControlsModel) (cid : String)
    (d : ClientEntityDefinition) (opts : OptionsObject) :
    ∀ (fields : List EntityField) (acc : OptionsObject × List String) (k : String),
      k ∈ (parseFieldsLoop cc cid d opts fields acc).1.map Prod.fst ↔
        k ∈ acc.1.map Prod.fst ∨ k ∈ fields.map EntityField.id := by
  intro fields
  induction fields with
  | nil => intro acc k; simp [parseFieldsLoop]
  | cons f rest ih =>
    intro acc k
    simp only [parseFieldsLoop]
    rw [ih]
    rw [stepField_fst, mem_keys_mapSet]
    simp only [List.map_cons, List.mem_cons]
    tauto

theorem parseFieldsLoop_lookup_mem (cc : ControlsModel) (cid : String)
    (d : ClientEntityDefinition) (opts : OptionsObject) :
    ∀ (fields : List EntityField) (acc : OptionsObject × List String) (f : EntityField),
      (fields.map EntityField.id).Nodup → f ∈ fields →
      mapLookup (parseFieldsLoop cc cid d opts fields acc).1 f.id =
        some (if f.ftype ≠ "textinput" ∨ f.useVariables = false then getOpt opts f.id
              else .str (cc.parseVariables cid (jsToString (getOpt opts f.id))).text) := by
  intro fields
  induction fields with
  | nil => intro acc f _ hf; simp at hf
  | cons g rest ih =>
    intro acc f hnd hf
    rw [List.map_cons, List.nodup_cons] at hnd
    rcases List.mem_cons.mp hf with rfl | hf2
    · simp only [parseFieldsLoop]
      rw [parseFieldsLoop_lookup_notmem cc cid d opts rest _ f.id hnd.1]
      rw [stepField_fst, mapLookup_set_self]
    · simp only [parseFieldsLoop]
      exact ih _ f hnd.2 hf2

theorem parseFieldsLoop_vars (cc : ControlsModel) (cid : String)
    (d : ClientEntityDefinition) (opts : OptionsObject) :
    ∀ (fields : List EntityField) (acc : OptionsObject × List String) (v : String),
      v ∈ (parseFieldsLoop cc cid d opts fields acc).2 ↔
        v ∈ acc.2 ∨ ∃ f, f ∈ fields ∧ f.ftype = "textinput" ∧ f.useVariables = true ∧
          f.id ∉ d.optionsToIgnoreForSubscribe ∧
          v ∈ (cc.parseVariables cid (jsToString (getOpt opts f.id))).variableIds := by
  intro fields
  induction fields with
  | nil => intro acc v; simp [parseFieldsLoop]
  | cons g rest ih =>
    intro acc v
    simp only [parseFieldsLoop]
    rw [ih, stepField_snd_mem]
    constructor
    · rintro ((hv | hg) | ⟨f, hf, hc⟩)
      · exact Or.inl hv
      · exact Or.inr ⟨g, List.mem_cons_self g rest, hg⟩
      · exact Or.inr ⟨f, List.mem_cons_of_mem _ hf, hc⟩
    · rintro (hv | ⟨f, hf, hc⟩)
      · exact Or.inl (Or.inl hv)
      · rcases List.mem_cons.mp hf with rfl | hf2
        · exact Or.inl (Or.inr hc)
        · exact Or.inr ⟨f, hf2, hc⟩

/-- C6: for an unknown definition `parseOptionsObject` returns the input
options unchanged with an empty variable set; for a known definition the
output object's keys are exactly the declared field ids (undeclared input
keys are dropped), non-variable fields are copied unchanged, variable text
fields store the parsed text, and the returned variable set contains
exactly the variables touched while parsing declared variable-substituting
text fields not listed in `optionsToIgnoreForSubscribe`. -/
theorem parseOptionsObject_characterization (cc : ControlsModel)
    (d : ClientEntityDefinition) (opts : OptionsObject) (cid : String)
    (hnd : (d.options.map EntityField.id).Nodup) :
    parseOptionsObject cc none opts cid = (opts, []) ∧
    (∀ k, k ∈ (parseOptionsObject cc (some d) opts cid).1.map Prod.fst ↔
        k ∈ d.options.map EntityField.id) ∧
    (∀ f, f ∈ d.options → (f.ftype ≠ "textinput" ∨ f.useVariables = false) →
        getOpt (parseOptionsObject cc (some d) opts cid).1 f.id = getOpt opts f.id) ∧
    (∀ f, f ∈ d.options → f.ftype = "textinput" → f.useVariables = true →
        getOpt (parseOptionsObject cc (some d) opts cid).1 f.id =
          .str (cc.parseVariables cid (jsToString (getOpt opts f.id))).text) ∧
    (∀ v, v ∈ (parseOptionsObject cc (some d) opts cid).2 ↔
        ∃ f, f ∈ d.options ∧ f.ftype = "textinput" ∧ f.useVariables = true ∧
          f.id ∉ d.optionsToIgnoreForSubscribe ∧
          v ∈ (cc.parseVariables cid (jsToString (getOpt opts f.id))).variableIds) := by
  refine ⟨rfl, ?_, ?_, ?_, ?_⟩
  · intro k
    unfold parseOptionsObject
    rw [parseFieldsLoop_keys]
    simp
  · intro f hf hcase
    unfold parseOptionsObject getOpt
    rw [parseFieldsLoop_lookup_mem cc cid d opts d.options ([], []) f hnd hf, if_pos hcase]
    rfl
  · intro f hf h1 h2
    unfold parseOptionsObject getOpt
    rw [parseFieldsLoop_lookup_mem cc cid d opts d.options ([], []) f hnd hf,
      if_neg (by simp [h1, h2])]
    rfl
  · intro v
    unfold parseOptionsObject
    rw [parseFieldsLoop_vars]
    simp

/-- C10: for a known definition and a declared field id absent from the raw
options, a non-variable field is stored as the JS `undefined` value (its
key is present in the output), and a variable-substituting textinput passes
the stringification `"undefined"` through the variable parser and stores
the parsed text. -/
theorem parseOptionsObject_missing_field (cc : ControlsModel)
    (d : ClientEntityDefinition) (opts : OptionsObject) (cid : String) (f : EntityField)
    (hnd : (d.options.map EntityField.id).Nodup) (hf : f ∈ d.options)
    (habs : f.id ∉ opts.map Prod.fst) :
    ((f.ftype ≠ "textinput" ∨ f.useVariables = false) →
        getOpt (parseOptionsObject cc (some d) opts cid).1 f.id = JsValue.undef ∧
        f.id ∈ (parseOptionsObject cc (some d) opts cid).1.map Prod.fst) ∧
    (f.ftype = "textinput" → f.useVariables = true →
        getOpt (parseOptionsObject cc (some d) opts cid).1 f.id =
          .str (cc.parseVariables cid "undefined").text) := by
  have h0 : getOpt opts f.id = .undef := by
    unfold getOpt
    rw [mapLookup_eq_none_of_notmem _ _ habs]
    rfl
  constructor
  · intro hcase
    constructor
    · unfold parseOptionsObject getOpt
      rw [parseFieldsLoop_lookup_mem cc cid d opts d.options ([], []) f hnd hf, if_pos hcase,
        h0]
      rfl
    · unfold parseOptionsObject
      rw [parseFieldsLoop_keys]
      simp only [List.map_nil, List.not_mem_nil, false_or]
      exact List.mem_map_of_mem EntityField.id hf
  · intro h1 h2
    unfold parseOptionsObject getOpt
    rw [parseFieldsLoop_lookup_mem cc cid d opts d.options ([], []) f hnd hf,
      if_neg (by simp [h1, h2]), h0]
    rfl

/-! ### Lemmas about the reply and failure continuations -/

theorem replyStep_lookup_ne (cc : ControlsModel) (up : List Replacement) (eid : String)
    (wid : Nat) (m : EntityMap) (k : String) (h : k ≠ eid) :
    mapLookup (replyStep cc up eid wid m).1 k = mapLookup m k := by
  unfold replyStep
  repeat' split
  all_goals first
    | rfl
    | exact mapLookup_delete_ne m eid k h
    | exact mapLookup_set_ne m eid k _ h

theorem replyStep_tag (cc : ControlsModel) (up : List Replacement) (eid : String)
    (wid : Nat) (m : EntityMap) (d : Delivery)
    (h : (replyStep cc up eid wid m).2 = some d) : d.batchEntityId = eid := by
  unfold replyStep at h
  repeat' split at h
  all_goals (cases h <;> rfl)

theorem replyStep_invalidated (cc : ControlsModel) (up : List Replacement) (eid : String)
    (wid : Nat) (m : EntityMap) (w : EntityWrapper) (e : Entity)
    (hw : mapLookup m eid = some w) (hid : w.wrapperId = wid) (he : w.entity = some e)
    (hs : w.state = .UPGRADING_INVALIDATED) :
    replyStep cc up eid wid m = (mapSet m eid { w with state := .UNLOADED }, none) := by
  simp [replyStep, hw, hid, he, hs]

theorem replyStep_upgrading_delivered (cc : ControlsModel) (up : List Replacement)
    (eid : String) (wid : Nat) (m : EntityMap) (w : EntityWrapper) (e : Entity)
    (c : ControlInfo) (r : Replacement)
    (hw : mapLookup m eid = some w) (hid : w.wrapperId = wid) (he : w.entity = some e)
    (hs : w.state = .UPGRADING) (hc : cc.getControl w.controlId = some c)
    (hse : c.supportsEntities = true) (hr : replLookup up e.id = some r) :
    replyStep cc up eid wid m = (m, some ⟨eid, w.controlId, r⟩) := by
  simp [replyStep, hw, hid, he, hs, hc, hse, hr]

theorem replyStep_stale (cc : ControlsModel) (up : List Replacement) (eid : String)
    (wid : Nat) (m : EntityMap)
    (hmiss : mapLookup m eid = none ∨
      ∃ w, mapLookup m eid = some w ∧ w.wrapperId ≠ wid) :
    replyStep cc up eid wid m = (m, none) := by
  rcases hmiss with h | ⟨w, hw, hne⟩
  · simp [replyStep, h]
  · simp [replyStep, hw, hne]

theorem processReplyLoop_frame (cc : ControlsModel) (up : List Replacement) :
    ∀ (batch : List (String × Nat)) (m : EntityMap) (eid : String),
      eid ∉ batch.map Prod.fst →
      mapLookup (processReplyLoop cc up batch m).1 eid = mapLookup m eid ∧
      ∀ d ∈ (processReplyLoop cc up batch m).2, d.batchEntityId ≠ eid := by
  intro batch
  induction batch with
  | nil => intro m eid _; exact ⟨rfl, by simp [processReplyLoop]⟩
  | cons p rest ih =>
    obtain ⟨k, wd⟩ := p
    intro m eid hmem
    simp only [List.map_cons, List.mem_cons, not_or] at hmem
    obtain ⟨hne, hrest⟩ := hmem
    simp only [processReplyLoop]
    constructor
    · rw [(ih _ eid hrest).1, replyStep_lookup_ne cc up k wd m eid hne]
    · intro d hd
      rcases List.mem_append.mp hd with hd1 | hd2
      · have hsome : (replyStep cc up k wd m).2 = some d := by
          cases ho : (replyStep cc up k wd m).2 with
          | none => rw [ho] at hd1; simp at hd1
          | some x =>
            rw [ho] at hd1
            simp at hd1
            subst hd1
            rfl
        rw [replyStep_tag cc up k wd m d hsome]
        exact fun hh => hne hh.symm
      · exact (ih _ eid hrest).2 d hd2

theorem failStep_lookup_ne (eid : String) (wid : Nat) (m : EntityMap) (k : String)
    (h : k ≠ eid) : mapLookup (failStep eid wid m) k = mapLookup m k := by
  unfold failStep
  repeat' split
  all_goals first
    | rfl
    | exact mapLookup_set_ne m eid k _ h

theorem failStep_upgrading (eid : String) (wid : Nat) (m : EntityMap) (w : EntityWrapper)
    (hw : mapLookup m eid = some w) (hid : w.wrapperId = wid) (hs : w.state = .UPGRADING) :
    failStep eid wid m = mapSet m eid { w with state := .READY } := by
  simp [failStep, hw, hid, hs]

theorem failStep_invalidated (eid : String) (wid : Nat) (m : EntityMap) (w : EntityWrapper)
    (hw : mapLookup m eid = some w) (hid : w.wrapperId = wid)
    (hs : w.state = .UPGRADING_INVALIDATED) :
    failStep eid wid m = mapSet m eid { w with state := .UNLOADED } := by
  simp [failStep, hw, hid, hs]

theorem failStep_stale (eid : String) (wid : Nat) (m : EntityMap)
    (hmiss : mapLookup m eid = none ∨
      ∃ w, mapLookup m eid = some w ∧ w.wrapperId ≠ wid) :
    failStep eid wid m = m := by
  rcases hmiss with h | ⟨w, hw, hne⟩
  · simp [failStep, h]
  · simp [failStep, hw, hne]

theorem processFail_frame : ∀ (batch : List (String × Nat)) (m : EntityMap) (eid : String),
    eid ∉ batch.map Prod.fst →
    mapLookup (processUpgradeFailure batch m) eid = mapLookup m eid := by
  intro batch
  induction batch with
  | nil => intro m eid _; rfl
  | cons p rest ih =>
    obtain ⟨k, wd⟩ := p
    intro m eid hmem
    simp only [List.map_cons, List.mem_cons, not_or] at hmem
    simp only [processUpgradeFailure]
    rw [ih _ eid hmem.2, failStep_lookup_ne k wd m eid hmem.1]

theorem deliveries_filter_nil (eid : String) :
    ∀ (ds : List Delivery), (∀ d ∈ ds, d.batchEntityId ≠ eid) →
      ds.filter (fun d => d.batchEntityId == eid) = [] := by
  intro ds h
  induction ds with
  | nil => rfl
  | cons d rest ih =>
    have hd := h d (List.mem_cons_self d rest)
    simp only [List.filter_cons]
    rw [if_neg (by simp [hd])]
    exact ih (fun x hx => h x (List.mem_cons_of_mem _ hx))

theorem processReplyLoop_invalidated (cc : ControlsModel) (up : List Replacement) :
    ∀ (batch : List (String × Nat)) (m : EntityMap) (eid : String) (wid : Nat)
      (w : EntityWrapper) (e : Entity),
      (batch.map Prod.fst).Nodup → (eid, wid) ∈ batch →
      mapLookup m eid = some w → w.wrapperId = wid → w.entity = some e →
      w.state = .UPGRADING_INVALIDATED →
      mapLookup (processReplyLoop cc up batch m).1 eid = some { w with state := .UNLOADED } ∧
      ∀ d ∈ (processReplyLoop cc up batch m).2, d.batchEntityId ≠ eid := by
  intro batch
  induction batch with
  | nil => intro m eid wid w e _ hb _ _ _ _; simp at hb
  | cons p rest ih =>
    obtain ⟨k, wd⟩ := p
    intro m eid wid w e hnd hb hw hid he hs
    rw [List.map_cons, List.nodup_cons] at hnd
    rcases List.mem_cons.mp hb with heq | hb2
    · rw [Prod.mk.injEq] at heq
      obtain ⟨hk, hwd⟩ := heq
      subst hk
      subst hwd
      have h1 : (replyStep cc up eid wid m).1 = mapSet m eid { w with state := .UNLOADED } := by
        rw [replyStep_invalidated cc up eid wid m w e hw hid he hs]
      have h2 : (replyStep cc up eid wid m).2 = none := by
        rw [replyStep_invalidated cc up eid wid m w e hw hid he hs]
      have hfr := processReplyLoop_frame cc up rest
        (mapSet m eid { w with state := .UNLOADED }) eid hnd.1
      simp only [processReplyLoop, h1, h2]
      constructor
      · rw [hfr.1, mapLookup_set_self]
      · intro d hd
        simp only [Option.toList_none, List.nil_append] at hd
        exact hfr.2 d hd
    · have hkne : eid ≠ k := by
        intro hh
        apply hnd.1
        rw [← hh]
        exact List.mem_map.mpr ⟨(eid, wid), hb2, rfl⟩
      simp only [processReplyLoop]
      have hw2 : mapLookup (replyStep cc up k wd m).1 eid = some w := by
        rw [replyStep_lookup_ne cc up k wd m eid hkne]
        exact hw
      have hih := ih (replyStep cc up k wd m).1 eid wid w e hnd.2 hb2 hw2 hid he hs
      refine ⟨hih.1, ?_⟩
      intro d hd
      rcases List.mem_append.mp hd with hd1 | hd2
      · have hsome : (replyStep cc up k wd m).2 = some d := by
          cases ho : (replyStep cc up k wd m).2 with
          | none => rw [ho] at hd1; simp at hd1
          | some x => rw [ho] at hd1; simp at hd1; subst hd1; rfl
        rw [replyStep_tag cc up k wd m d hsome]
        exact fun hh => hkne hh.symm
      · exact hih.2 d hd2

theorem processReplyLoop_upgrading (cc : ControlsModel) (up : List Replacement) :
    ∀ (batch : List (String × Nat)) (m : EntityMap) (eid : String) (wid : Nat)
      (w : EntityWrapper) (e : Entity) (c : ControlInfo) (r : Replacement),
      (batch.map Prod.fst).Nodup → (eid, wid) ∈ batch →
      mapLookup m eid = some w → w.wrapperId = wid → w.entity = some e →
      w.state = .UPGRADING → cc.getControl w.controlId = some c →
      c.supportsEntities = true → replLookup up e.id = some r →
      mapLookup (processReplyLoop cc up batch m).1 eid = some w ∧
      (processReplyLoop cc up batch m).2.filter (fun d => d.batchEntityId == eid) =
        [⟨eid, w.controlId, r⟩] := by
  intro batch
  induction batch with
  | nil => intro m eid wid w e c r _ hb _ _ _ _ _ _ _; simp at hb
  | cons p rest ih =>
    obtain ⟨k, wd⟩ := p
    intro m eid wid w e c r hnd hb hw hid he hs hc hse hr
    rw [List.map_cons, List.nodup_cons] at hnd
    rcases List.mem_cons.mp hb with heq | hb2
    · rw [Prod.mk.injEq] at heq
      obtain ⟨hk, hwd⟩ := heq
      subst hk
      subst hwd
      have h1 : (replyStep cc up eid wid m).1 = m := by
        rw [replyStep_upgrading_delivered cc up eid wid m w e c r hw hid he hs hc hse hr]
      have h2 : (replyStep cc up eid wid m).2 = some ⟨eid, w.controlId, r⟩ := by
        rw [replyStep_upgrading_delivered cc up eid wid m w e c r hw hid he hs hc hse hr]
      have hfr := processReplyLoop_frame cc up rest m eid hnd.1
      simp only [processReplyLoop, h1, h2]
      constructor
      · rw [hfr.1]
        exact hw
      · simp only [Option.toList_some, List.singleton_append, List.filter_cons]
        rw [if_pos (by simp), deliveries_filter_nil eid _ hfr.2]
    · have hkne : eid ≠ k := by
        intro hh
        apply hnd.1
        rw [← hh]
        exact List.mem_map.mpr ⟨(eid, wid), hb2, rfl⟩
      simp only [processReplyLoop]
      have hw2 : mapLookup (replyStep cc up k wd m).1 eid = some w := by
        rw [replyStep_lookup_ne cc up k wd m eid hkne]
        exact hw
      have hih := ih (replyStep cc up k wd m).1 eid wid w e c r hnd.2 hb2 hw2 hid he hs hc hse hr
      refine ⟨hih.1, ?_⟩
      rw [List.filter_append]
      have hhead : (replyStep cc up k wd m).2.toList.filter
          (fun d => d.batchEntityId == eid) = [] := by
        apply deliveries_filter_nil
        intro d hd1
        have hsome : (replyStep cc up k wd m).2 = some d := by
          cases ho : (replyStep cc up k wd m).2 with
          | none => rw [ho] at hd1; simp at hd1
          | some x => rw [ho] at hd1; simp at hd1; subst hd1; rfl
        rw [replyStep_tag cc up k wd m d hsome]
        exact fun hh => hkne hh.symm
      rw [hhead, List.nil_append]
      exact hih.2

theorem processReplyLoop_stale (cc : ControlsModel) (up : List Replacement) :
    ∀ (batch : List (String × Nat)) (m : EntityMap) (eid : String) (wid : Nat),
      (batch.map Prod.fst).Nodup → (eid, wid) ∈ batch →
      (mapLookup m eid = none ∨ ∃ w, mapLookup m eid = some w ∧ w.wrapperId ≠ wid) →
      mapLookup (processReplyLoop cc up batch m).1 eid = mapLookup m eid ∧
      ∀ d ∈ (processReplyLoop cc up batch m).2, d.batchEntityId ≠ eid := by
  intro batch
  induction batch with
  | nil => intro m eid wid _ hb _; simp at hb
  | cons p rest ih =>
    obtain ⟨k, wd⟩ := p
    intro m eid wid hnd hb hmiss
    rw [List.map_cons, List.nodup_cons] at hnd
    rcases List.mem_cons.mp hb with heq | hb2
    · rw [Prod.mk.injEq] at heq
      obtain ⟨hk, hwd⟩ := heq
      subst hk
      subst hwd
      have h0 : replyStep cc up eid wid m = (m, none) := replyStep_stale cc up eid wid m hmiss
      have h1 : (replyStep cc up eid wid m).1 = m := by rw [h0]
      have h2 : (replyStep cc up eid wid m).2 = none := by rw [h0]
      have hfr := processReplyLoop_frame cc up rest m eid hnd.1
      simp only [processReplyLoop, h1, h2]
      refine ⟨hfr.1, ?_⟩
      intro d hd
      simp only [Option.toList_none, List.nil_append] at hd
      exact hfr.2 d hd
    · have hkne : eid ≠ k := by
        intro hh
        apply hnd.1
        rw [← hh]
        exact List.mem_map.mpr ⟨(eid, wid), hb2, rfl⟩
      simp only [processReplyLoop]
      have hlk : mapLookup (replyStep cc up k wd m).1 eid = mapLookup m eid :=
        replyStep_lookup_ne cc up k wd m eid hkne
      have hmiss2 : mapLookup (replyStep cc up k wd m).1 eid = none ∨
          ∃ w, mapLookup (replyStep cc up k wd m).1 eid = some w ∧ w.wrapperId ≠ wid := by
        rcases hmiss with h | ⟨w, hw, hne⟩
        · exact Or.inl (by rw [hlk, h])
        · exact Or.inr ⟨w, by rw [hlk, hw], hne⟩
      have hih := ih (replyStep cc up k wd m).1 eid wid hnd.2 hb2 hmiss2
      refine ⟨hih.1.trans hlk, ?_⟩
      intro d hd
      rcases List.mem_append.mp hd with hd1 | hd2
      · have hsome : (replyStep cc up k wd m).2 = some d := by
          cases ho : (replyStep cc up k wd m).2 with
          | none => rw [ho] at hd1; simp at hd1
          | some x => rw [ho] at hd1; simp at hd1; subst hd1; rfl
        rw [replyStep_tag cc up k wd m d hsome]
        exact fun hh => hkne hh.symm
      · exact hih.2 d hd2

theorem processFail_upgrading :
    ∀ (batch : List (String × Nat)) (m : EntityMap) (eid : String) (wid : Nat)
      (w : EntityWrapper),
      (batch.map Prod.fst).Nodup → (eid, wid) ∈ batch →
      mapLookup m eid = some w → w.wrapperId = wid → w.state = .UPGRADING →
      mapLookup (processUpgradeFailure batch m) eid = some { w with state := .READY } := by
  intro batch
  induction batch with
  | nil => intro m eid wid w _ hb _ _ _; simp at hb
  | cons p rest ih =>
    obtain ⟨k, wd⟩ := p
    intro m eid wid w hnd hb hw hid hs
    rw [List.map_cons, List.nodup_cons] at hnd
    rcases List.mem_cons.mp hb with heq | hb2
    · rw [Prod.mk.injEq] at heq
      obtain ⟨hk, hwd⟩ := heq
      subst hk
      subst hwd
      simp only [processUpgradeFailure]
      rw [failStep_upgrading eid wid m w hw hid hs]
      rw [processFail_frame rest _ eid hnd.1, mapLookup_set_self]
    · have hkne : eid ≠ k := by
        intro hh
        apply hnd.1
        rw [← hh]
        exact List.mem_map.mpr ⟨(eid, wid), hb2, rfl⟩
      simp only [processUpgradeFailure]
      have hw2 : mapLookup (failStep k wd m) eid = some w := by
        rw [failStep_lookup_ne k wd m eid hkne]
        exact hw
      exact ih (failStep k wd m) eid wid w hnd.2 hb2 hw2 hid hs

theorem processFail_invalidated :
    ∀ (batch : List (String × Nat)) (m : EntityMap) (eid : String) (wid : Nat)
      (w : EntityWrapper),
      (batch.map Prod.fst).Nodup → (eid, wid) ∈ batch →
      mapLookup m eid = some w → w.wrapperId = wid → w.state = .UPGRADING_INVALIDATED →
      mapLookup (processUpgradeFailure batch m) eid = some { w with state := .UNLOADED } := by
  intro batch
  induction batch with
  | nil => intro m eid wid w _ hb _ _ _; simp at hb
  | cons p rest ih =>
    obtain ⟨k, wd⟩ := p
    intro m eid wid w hnd hb hw hid hs
    rw [List.map_cons, List.nodup_cons] at hnd
    rcases List.mem_cons.mp hb with heq | hb2
    · rw [Prod.mk.injEq] at heq
      obtain ⟨hk, hwd⟩ := heq
      subst hk
      subst hwd
      simp only [processUpgradeFailure]
      rw [failStep_invalidated eid wid m w hw hid hs]
      rw [processFail_frame rest _ eid hnd.1, mapLookup_set_self]
    · have hkne : eid ≠ k := by
        intro hh
        apply hnd.1
        rw [← hh]
        exact List.mem_map.mpr ⟨(eid, wid), hb2, rfl⟩
      simp only [processUpgradeFailure]
      have hw2 : mapLookup (failStep k wd m) eid = some w := by
        rw [failStep_lookup_ne k wd m eid hkne]
        exact hw
      exact ih (failStep k wd m) eid wid w hnd.2 hb2 hw2 hid hs

theorem processFail_stale :
    ∀ (batch : List (String × Nat)) (m : EntityMap) (eid : String) (wid : Nat),
      (batch.map Prod.fst).Nodup → (eid, wid) ∈ batch →
      (mapLookup m eid = none ∨ ∃ w, mapLookup m eid = some w ∧ w.wrapperId ≠ wid) →
      mapLookup (processUpgradeFailure batch m) eid = mapLookup m eid := by
  intro batch
  induction batch with
  | nil => intro m eid wid _ hb _; simp at hb
  | cons p rest ih =>
    obtain ⟨k, wd⟩ := p
    intro m eid wid hnd hb hmiss
    rw [List.map_cons, List.nodup_cons] at hnd
    rcases List.mem_cons.mp hb with heq | hb2
    · rw [Prod.mk.injEq] at heq
      obtain ⟨hk, hwd⟩ := heq
      subst hk
      subst hwd
      simp only [processUpgradeFailure]
      rw [failStep_stale eid wid m hmiss]
      exact processFail_frame rest m eid hnd.1
    · have hkne : eid ≠ k := by
        intro hh
        apply hnd.1
        rw [← hh]
        exact List.mem_map.mpr ⟨(eid, wid), hb2, rfl⟩
      simp only [processUpgradeFailure]
      have hlk : mapLookup (failStep k wd m) eid = mapLookup m eid :=
        failStep_lookup_ne k wd m eid hkne
      have hmiss2 : mapLookup (failStep k wd m) eid = none ∨
          ∃ w, mapLookup (failStep k wd m) eid = some w ∧ w.wrapperId ≠ wid := by
        rcases hmiss with h | ⟨w, hw, hne⟩
        · exact Or.inl (by rw [hlk, h])
        · exact Or.inr ⟨w, by rw [hlk, hw], hne⟩
      exact (ih (failStep k wd m) eid wid hnd.2 hb2 hmiss2).trans hlk

/-! ### Lemmas about the record-editing public API -/

theorem mapLookup_map_wrapper (f : EntityWrapper → EntityWrapper) :
    ∀ (m : EntityMap) (k : String),
      mapLookup (m.map (fun p => (p.1, f p.2))) k = (mapLookup m k).map f := by
  intro m
  induction m with
  | nil => intro k; rfl
  | cons p rest ih =>
    obtain ⟨k0, w⟩ := p
    intro k
    by_cases h : k0 = k <;> simp [mapLookup, h, ih]

theorem onVarsFn_lookup (ids : List String) :
    ∀ (m : EntityMap) (k : String),
      mapLookup (onVariablesChangedFn ids m).1 k =
        (mapLookup m k).map (fun w => (invalidateForVars ids w).1) := by
  intro m
  induction m with
  | nil => intro k; rfl
  | cons p rest ih =>
    obtain ⟨k0, w⟩ := p
    intro k
    by_cases h : k0 = k <;> simp [onVariablesChangedFn, mapLookup, h, ih]

theorem invalidateForVars_empty (w : EntityWrapper) :
    invalidateForVars [] w = (w, false) := by
  unfold invalidateForVars
  repeat' split
  all_goals simp_all

theorem onVarsFn_empty : ∀ (m : EntityMap), onVariablesChangedFn [] m = (m, false) := by
  intro m
  induction m with
  | nil => rfl
  | cons p rest ih =>
    obtain ⟨k0, w⟩ := p
    simp [onVariablesChangedFn, invalidateForVars_empty, ih]

theorem resendFb_lookup (m : EntityMap) (k : String) :
    mapLookup (resendFeedbacksFn m).1 k = (mapLookup m k).map resendFbWrapper :=
  mapLookup_map_wrapper resendFbWrapper m k

/-! ### Lemmas about the drain pass and the operation machine -/

theorem drainWrapper_states (cc : ControlsModel) (idx : Nat) (eid : String)
    (w : EntityWrapper) :
    ∀ p ∈ (drainWrapper cc idx eid w).entities,
      p.2.state ≠ .UNLOADED ∧ p.2.state ≠ .PENDING_DELETE := by
  intro p hp
  unfold drainWrapper at hp
  repeat' split at hp
  all_goals simp_all

theorem drainEntities_states (cc : ControlsModel) (idx : Nat) :
    ∀ (l : List (String × EntityWrapper)),
      ∀ p ∈ (drainEntities cc idx l).entities,
        p.2.state ≠ .UNLOADED ∧ p.2.state ≠ .PENDING_DELETE := by
  intro l
  induction l with
  | nil => intro p hp; simp [drainEntities] at hp
  | cons q rest ih =>
    obtain ⟨eid, w0⟩ := q
    intro p hp
    simp only [drainEntities] at hp
    rcases List.mem_append.mp hp with h1 | h2
    · exact drainWrapper_states cc idx eid w0 p h1
    · exact ih p h2

theorem emStep_not_ready (cc : ControlsModel) (s : EMState) (op : EMOp)
    (h : s.ready = false) :
    (emStep cc s op).1.ready = false ∧ (emStep cc s op).2 = [] := by
  cases op with
  | track e controlId => exact ⟨h, rfl⟩
  | forget eid =>
    refine ⟨?_, rfl⟩
    show (forgetEntityFn s eid).ready = false
    unfold forgetEntityFn
    split <;> exact h
  | resendFb => exact ⟨h, rfl⟩
  | varsChanged ids => exact ⟨h, rfl⟩
  | defsChanged ty => exact ⟨h, rfl⟩
  | tick => simp [emStep, h]

theorem emStep_tick_not_ready (cc : ControlsModel) (s : EMState) (h : s.ready = false) :
    emStep cc s .tick = (s, []) := by
  simp [emStep, h]

theorem emRun_not_ready (cc : ControlsModel) :
    ∀ (ops : List EMOp) (s : EMState), s.ready = false →
      (emRun cc s ops).1.ready = false ∧ (emRun cc s ops).2 = [] := by
  intro ops
  induction ops with
  | nil => intro s h; exact ⟨h, rfl⟩
  | cons op rest ih =>
    intro s h
    have h1 := emStep_not_ready cc s op h
    have h2 := ih (emStep cc s op).1 h1.1
    constructor
    · simpa [emRun] using h2.1
    · simp [emRun, h1.2, h2.2]

/-! ### Claim theorems -/

/-- C1 (amended): for a successful upgrade reply and an id in the dispatched
batch whose record still exists with an unchanged wrapper id, whose entity
has not been garbage collected, and whose state at reply time is
`UpgradingInvalidated`: the replacement is not delivered for that id and the
record's state becomes `Unloaded`.  (The liveness hypothesis is required:
when the weak ref is dead the record is removed instead, see the
counterexample.) -/
theorem upgradeReply_invalidated_discard (cc : ControlsModel) (up : List Replacement)
    (batch : List (String × Nat)) (m : EntityMap) (eid : String) (wid : Nat)
    (w : EntityWrapper) (e : Entity)
    (hnd : (batch.map Prod.fst).Nodup) (hb : (eid, wid) ∈ batch)
    (hw : mapLookup m eid = some w) (hid : w.wrapperId = wid) (he : w.entity = some e)
    (hs : w.state = .UPGRADING_INVALIDATED) :
    mapLookup (processUpgradeReply cc true up batch m).1 eid =
      some { w with state := .UNLOADED } ∧
    ∀ d ∈ (processUpgradeReply cc true up batch m).2, d.batchEntityId ≠ eid :=
  processReplyLoop_invalidated cc up batch m eid wid w e hnd hb hw hid he hs

/-- C1 counterexample: the claim as stated fails when the entity has been
garbage collected at reply time.  The record `("a", wGone)` exists with an
unchanged wrapper id and state `UpgradingInvalidated`, yet the reply removes
the record entirely, so its state does not become `Unloaded`. -/
theorem upgradeReply_invalidated_gc_counterexample :
    mapLookup [("a", wGone)] "a" = some wGone ∧
    wGone.wrapperId = 5 ∧ wGone.state = EntityState.UPGRADING_INVALIDATED ∧
    mapLookup (processUpgradeReply ccFix true [replA] [("a", 5)] [("a", wGone)]).1 "a" =
      none := by
  decide

/-- C1 witness at a concrete input. -/
theorem upgradeReply_invalidated_discard_witness :
    mapLookup (processUpgradeReply ccFix true [replA] [("a", 5)] [("a", wInv)]).1 "a" =
      some { wInv with state := EntityState.UNLOADED } :=
  (upgradeReply_invalidated_discard ccFix [replA] [("a", 5)] [("a", wInv)] "a" 5 wInv
    entStale (by decide) (by decide) (by decide) (by decide) (by decide) (by decide)).1

/-- C2 (amended): for a successful upgrade reply and an id in the batch whose
record still exists with an unchanged wrapper id, a live entity and state
`Upgrading`, when the owning control exists, supports entities, and the reply
contains a replacement for the entity, the replacement is delivered via
`entities.entityReplace` exactly once for that id — but the record does NOT
transition to `Ready`: it is left unchanged, still `Upgrading` (the control's
`entityReplace` is expected to re-track the entity, which replaces the slot). -/
theorem upgradeReply_upgrading_delivers (cc : ControlsModel) (up : List Replacement)
    (batch : List (String × Nat)) (m : EntityMap) (eid : String) (wid : Nat)
    (w : EntityWrapper) (e : Entity) (c : ControlInfo) (r : Replacement)
    (hnd : (batch.map Prod.fst).Nodup) (hb : (eid, wid) ∈ batch)
    (hw : mapLookup m eid = some w) (hid : w.wrapperId = wid) (he : w.entity = some e)
    (hs : w.state = .UPGRADING) (hc : cc.getControl w.controlId = some c)
    (hse : c.supportsEntities = true) (hr : replLookup up e.id = some r) :
    mapLookup (processUpgradeReply cc true up batch m).1 eid = some w ∧
    (processUpgradeReply cc true up batch m).2.filter (fun d => d.batchEntityId == eid) =
      [⟨eid, w.controlId, r⟩] :=
  processReplyLoop_upgrading cc up batch m eid wid w e c r hnd hb hw hid he hs hc hse hr

/-- C2 counterexample: the claim as stated is false.  At this concrete input
the replacement for the `Upgrading` record is delivered, but the record does
not transition to `Ready`: it is unchanged, still in state `Upgrading`. -/
theorem upgradeReply_upgrading_counterexample :
    (processUpgradeReply ccFix true [replA] [("a", 5)] [("a", wUpg)]).2 =
      [⟨"a", "c1", replA⟩] ∧
    mapLookup (processUpgradeReply ccFix true [replA] [("a", 5)] [("a", wUpg)]).1 "a" =
      some wUpg ∧
    wUpg.state = EntityState.UPGRADING := by
  decide

/-- C2 witness at a concrete input. -/
theorem upgradeReply_upgrading_delivers_witness :
    (processUpgradeReply ccFix true [replA] [("a", 5)] [("a", wUpg)]).2.filter
        (fun d => d.batchEntityId == "a") = [⟨"a", wUpg.controlId, replA⟩] :=
  (upgradeReply_upgrading_delivers ccFix [replA] [("a", 5)] [("a", wUpg)] "a" 5 wUpg
    entStale ⟨true⟩ replA (by decide) (by decide) (by decide) (by decide) (by decide)
    (by decide) (by decide) (by decide) (by decide)).2

/-- C3: when the upgrade RPC fails, for every id in the dispatched batch:
a still-existing record with unchanged wrapper id in state `Upgrading`
transitions to `Ready` and one in state `UpgradingInvalidated` transitions to
`Unloaded`; an absent record stays absent and a record with a different
wrapper id is left unchanged. -/
theorem upgradeFailure_transitions (batch : List (String × Nat)) (m : EntityMap)
    (eid : String) (wid : Nat)
    (hnd : (batch.map Prod.fst).Nodup) (hb : (eid, wid) ∈ batch) :
    (∀ w, mapLookup m eid = some w → w.wrapperId = wid → w.state = .UPGRADING →
      mapLookup (processUpgradeFailure batch m) eid = some { w with state := .READY }) ∧
    (∀ w, mapLookup m eid = some w → w.wrapperId = wid →
      w.state = .UPGRADING_INVALIDATED →
      mapLookup (processUpgradeFailure batch m) eid = some { w with state := .UNLOADED }) ∧
    (mapLookup m eid = none → mapLookup (processUpgradeFailure batch m) eid = none) ∧
    (∀ w, mapLookup m eid = some w → w.wrapperId ≠ wid →
      mapLookup (processUpgradeFailure batch m) eid = some w) := by
  refine ⟨?_, ?_, ?_, ?_⟩
  · intro w hw hid hs
    exact processFail_upgrading batch m eid wid w hnd hb hw hid hs
  · intro w hw hid hs
    exact processFail_invalidated batch m eid wid w hnd hb hw hid hs
  · intro hn
    exact (processFail_stale batch m eid wid hnd hb (Or.inl hn)).trans hn
  · intro w hw hne
    exact (processFail_stale batch m eid wid hnd hb (Or.inr ⟨w, hw, hne⟩)).trans hw

/-- C3 witness at a concrete input. -/
theorem upgradeFailure_transitions_witness :
    mapLookup (processUpgradeFailure [("a", 5)] [("a", wUpg)]) "a" =
      some { wUpg with state := EntityState.READY } :=
  (upgradeFailure_transitions [("a", 5)] [("a", wUpg)] "a" 5 (by decide) (by decide)).1
    wUpg (by decide) (by decide) (by decide)

/-- C8: for both continuations of an upgrade RPC (success and failure) and
every id snapshotted in the batch, if the record is absent or its wrapper id
differs from the snapshot, the reply causes no change to that slot and no
replacement is delivered for that id. -/
theorem upgradeReply_stale_ignored (cc : ControlsModel) (up : List Replacement)
    (batch : List (String × Nat)) (m : EntityMap) (eid : String) (wid : Nat)
    (hnd : (batch.map Prod.fst).Nodup) (hb : (eid, wid) ∈ batch)
    (hmiss : mapLookup m eid = none ∨
      ∃ w, mapLookup m eid = some w ∧ w.wrapperId ≠ wid) :
    mapLookup (processUpgradeReply cc true up batch m).1 eid = mapLookup m eid ∧
    (∀ d ∈ (processUpgradeReply cc true up batch m).2, d.batchEntityId ≠ eid) ∧
    mapLookup (processUpgradeFailure batch m) eid = mapLookup m eid := by
  have h1 := processReplyLoop_stale cc up batch m eid wid hnd hb hmiss
  exact ⟨h1.1, h1.2, processFail_stale batch m eid wid hnd hb hmiss⟩

/-- C8 witness at a concrete input (wrapper id mismatch). -/
theorem upgradeReply_stale_ignored_witness :
    mapLookup (processUpgradeReply ccFix true [replA] [("a", 99)] [("a", wUpg)]).1 "a" =
      mapLookup [("a", wUpg)] "a" :=
  (upgradeReply_stale_ignored ccFix [replA] [("a", 99)] [("a", wUpg)] "a" 99
    (by decide) (by decide) (Or.inr ⟨wUpg, by decide, by decide⟩)).1

/-- C9: `destroy` clears the record map and closes the gate; the success
continuation of an in-flight upgrade RPC short-circuits on the closed gate
(mutating nothing and delivering nothing), the failure continuation finds no
record in the cleared map and mutates nothing, and a scheduler tick on the
closed gate emits no RPC. -/
theorem destroy_shortcircuits (cc : ControlsModel) (s : EMState) (up : List Replacement)
    (batch : List (String × Nat)) (m : EntityMap) :
    (destroyFn s).entities = [] ∧ (destroyFn s).ready = false ∧
    processUpgradeReply cc false up batch m = (m, []) ∧
    processUpgradeFailure batch (destroyFn s).entities = [] ∧
    emStep cc (destroyFn s) EMOp.tick = (destroyFn s, []) := by
  refine ⟨rfl, rfl, rfl, ?_, ?_⟩
  · show processUpgradeFailure batch [] = []
    induction batch with
    | nil => rfl
    | cons p rest ih =>
      obtain ⟨k, wd⟩ := p
      simpa [processUpgradeFailure, failStep, mapLookup] using ih
  · exact emStep_tick_not_ready cc (destroyFn s) rfl

theorem invalidateForVars_not_ready (ids : List String) (w : EntityWrapper)
    (hs : w.state ≠ .READY) : invalidateForVars ids w = (w, false) := by
  unfold invalidateForVars
  rw [if_pos ?_]
  cases hst : w.state <;> simp_all

theorem invalidateForVars_ready_hit (ids : List String) (w : EntityWrapper)
    (vs : List String) (hs : w.state = .READY)
    (hlr : w.lastReferencedVariableIds = some vs) (hne : vs ≠ [])
    (hint : ∃ v, v ∈ ids ∧ v ∈ vs) :
    invalidateForVars ids w = ({ w with state := .UNLOADED }, true) := by
  obtain ⟨v, hvids, hvvs⟩ := hint
  have hie : vs.isEmpty = false := by
    cases vs with
    | nil => exact absurd rfl hne
    | cons a t => rfl
  have hall : ids.all (fun v => !(vs.contains v)) = false := by
    cases hall0 : ids.all (fun v => !(vs.contains v)) with
    | false => rfl
    | true =>
      exfalso
      have hv := List.all_eq_true.mp hall0 v hvids
      simp [hvvs] at hv
  unfold invalidateForVars
  rw [if_neg (by simp [hs])]
  simp [hlr, hie, hall]
  exact ⟨v, hvids, hvvs⟩

theorem invalidateForVars_ready_miss (ids : List String) (w : EntityWrapper)
    (hs : w.state = .READY)
    (hmiss : w.lastReferencedVariableIds = none ∨
      ∃ vs, w.lastReferencedVariableIds = some vs ∧ (vs = [] ∨ ∀ v ∈ ids, v ∉ vs)) :
    invalidateForVars ids w = (w, false) := by
  unfold invalidateForVars
  rw [if_neg (by simp [hs])]
  rcases hmiss with h | ⟨vs, hlr, hcase⟩
  · simp [h]
  · rcases hcase with rfl | hdis
    · simp [hlr]
    · have hall : ids.all (fun v => !(vs.contains v)) = true := by
        apply List.all_eq_true.mpr
        intro v hv
        simp [hdis v hv]
      by_cases hie : vs.isEmpty = true
      · simp [hlr, hie]
      · simp [hlr, hie, hall]
        exact hdis

/-- C5: `onVariablesChanged(changed_ids)` transitions exactly those records
in state `Ready` whose `lastReferencedVariableIds` set is non-empty and
intersects the changed set to `Unloaded`; records in any other state, and
`Ready` records with a missing, empty or disjoint variable set, are left
unchanged; and the call with the empty set changes no record and does not
poke the scheduler. -/
theorem onVariablesChanged_characterization (ids : List String) (m : EntityMap)
    (k : String) (w : EntityWrapper) (hw : mapLookup m k = some w) :
    (∀ vs, w.state = .READY → w.lastReferencedVariableIds = some vs → vs ≠ [] →
      (∃ v, v ∈ ids ∧ v ∈ vs) →
      mapLookup (onVariablesChangedFn ids m).1 k = some { w with state := .UNLOADED }) ∧
    (w.state ≠ .READY → mapLookup (onVariablesChangedFn ids m).1 k = some w) ∧
    (w.state = .READY →
      (w.lastReferencedVariableIds = none ∨
        ∃ vs, w.lastReferencedVariableIds = some vs ∧ (vs = [] ∨ ∀ v ∈ ids, v ∉ vs)) →
      mapLookup (onVariablesChangedFn ids m).1 k = some w) ∧
    onVariablesChangedFn [] m = (m, false) := by
  refine ⟨?_, ?_, ?_, onVarsFn_empty m⟩
  · intro vs hs hlr hne hint
    rw [onVarsFn_lookup, hw]
    simp [invalidateForVars_ready_hit ids w vs hs hlr hne hint]
  · intro hs
    rw [onVarsFn_lookup, hw]
    simp [invalidateForVars_not_ready ids w hs]
  · intro hs hmiss
    rw [onVarsFn_lookup, hw]
    simp [invalidateForVars_ready_miss ids w hs hmiss]

/-- A Feedback entity with no upgrade pending. -/
def entFb : Entity := ⟨"f1", .feedback, none, none, []⟩

/-- A ready Feedback record. -/
def wFb : EntityWrapper := ⟨2, some entFb, "c1", .READY, none⟩

/-- A ready record whose last parse referenced `v1` and `v2`. -/
def wReady : EntityWrapper := ⟨3, some entFb, "c1", .READY, some ["v1", "v2"]⟩

/-- A ready record whose weak ref is dead. -/
def wNoEnt : EntityWrapper := ⟨1, none, "c9", .READY, none⟩

/-- C5 witness at a concrete input. -/
theorem onVariablesChanged_characterization_witness :
    mapLookup (onVariablesChangedFn ["v2"] [("r1", wReady)]).1 "r1" =
      some { wReady with state := EntityState.UNLOADED } :=
  (onVariablesChanged_characterization ["v2"] [("r1", wReady)] "r1" wReady
    (by decide)).1 ["v1", "v2"] (by decide) (by decide) (by decide)
    ⟨"v2", by decide, by decide⟩

/-- C7 (amended): `resendFeedbacks` applies the invalidation transition to
every record whose entity derefs to a Feedback (`Ready` becomes `Unloaded`,
`Upgrading` becomes `UpgradingInvalidated`, all other states unchanged) and
leaves every other record unchanged — but it pokes the scheduler
unconditionally, not only when some record changed state. -/
theorem resendFeedbacks_characterization (m : EntityMap) (k : String)
    (w : EntityWrapper) (hw : mapLookup m k = some w) :
    (∀ e, w.entity = some e → e.etype = .feedback → w.state = .READY →
      mapLookup (resendFeedbacksFn m).1 k = some { w with state := .UNLOADED }) ∧
    (∀ e, w.entity = some e → e.etype = .feedback → w.state = .UPGRADING →
      mapLookup (resendFeedbacksFn m).1 k =
        some { w with state := .UPGRADING_INVALIDATED }) ∧
    (∀ e, w.entity = some e → e.etype = .feedback → w.state ≠ .READY →
      w.state ≠ .UPGRADING → mapLookup (resendFeedbacksFn m).1 k = some w) ∧
    (w.entity = none → mapLookup (resendFeedbacksFn m).1 k = some w) ∧
    (∀ e, w.entity = some e → e.etype ≠ .feedback →
      mapLookup (resendFeedbacksFn m).1 k = some w) ∧
    (resendFeedbacksFn m).2 = true := by
  refine ⟨?_, ?_, ?_, ?_, ?_, rfl⟩
  · intro e he ht hs
    rw [resendFb_lookup, hw]
    simp [resendFbWrapper, he, ht, hs]
  · intro e he ht hs
    rw [resendFb_lookup, hw]
    simp [resendFbWrapper, he, ht, hs]
  · intro e he ht h1 h2
    rw [resendFb_lookup, hw]
    cases hst : w.state <;> simp_all [resendFbWrapper]
  · intro he
    rw [resendFb_lookup, hw]
    simp [resendFbWrapper, he]
  · intro e he ht
    rw [resendFb_lookup, hw]
    simp [resendFbWrapper, he, ht]

/-- C7 counterexample: the claim's poke clause is false.  Here no record
changes state (the only record's entity is reclaimed), yet `resendFeedbacks`
still pokes the scheduler. -/
theorem resendFeedbacks_poke_counterexample :
    resendFeedbacksFn [("x", wNoEnt)] = ([("x", wNoEnt)], true) := by
  decide

/-- C7 witness at a concrete input. -/
theorem resendFeedbacks_characterization_witness :
    mapLookup (resendFeedbacksFn [("f1", wFb)]).1 "f1" =
      some { wFb with state := EntityState.UNLOADED } :=
  (resendFeedbacks_characterization [("f1", wFb)] "f1" wFb (by decide)).1 entFb
    (by decide) (by decide) (by decide)

/-- C4: before `start` is called, any sequence of public API calls and
scheduler ticks emits no RPC and leaves the gate closed (a tick on the
closed gate is a complete no-op), and the first scheduler tick after
`start` drains the accumulated records: afterwards no record is left in
state `Unloaded` or `PendingDelete`. -/
theorem preStart_no_rpc_then_drained (cc : ControlsModel) (s : EMState)
    (ops : List EMOp) (idx : Nat) (h : s.ready = false) :
    (emRun cc s ops).2 = [] ∧
    (emRun cc s ops).1.ready = false ∧
    (∀ s2 : EMState, s2.ready = false → emStep cc s2 EMOp.tick = (s2, [])) ∧
    (∀ k w, mapLookup
        (emStep cc (startFn (emRun cc s ops).1 idx) EMOp.tick).1.entities k = some w →
      w.state ≠ .UNLOADED ∧ w.state ≠ .PENDING_DELETE) := by
  refine ⟨(emRun_not_ready cc ops s h).2, (emRun_not_ready cc ops s h).1,
    emStep_tick_not_ready cc, ?_⟩
  intro k w hw
  have hent : (emStep cc (startFn (emRun cc s ops).1 idx) EMOp.tick).1.entities =
      (drainEntities cc idx (emRun cc s ops).1.entities).entities := by
    simp [emStep, startFn]
  rw [hent] at hw
  exact drainEntities_states cc idx _ (k, w) (mapLookup_mem _ _ _ hw)

/-- The empty initial engine state. -/
def emS0 : EMState := ⟨[], false, 0, 0⟩

/-- A pre-start call sequence: track a feedback entity, then a (gated) tick. -/
def opsFix : List EMOp := [.track entFb "c2", .tick]

/-- C4 witness at a concrete input. -/
theorem preStart_no_rpc_then_drained_witness :
    emS0.ready = false ∧ (emRun ccFix emS0 opsFix).2 = [] ∧
    (emRun ccFix emS0 opsFix).1.ready = false :=
  ⟨rfl, (preStart_no_rpc_then_drained ccFix emS0 opsFix 3 rfl).1,
    (preStart_no_rpc_then_drained ccFix emS0 opsFix 3 rfl).2.1⟩

/-- C6 witness at a concrete input. -/
theorem parseOptionsObject_characterization_witness :
    (dFix.options.map EntityField.id).Nodup ∧
    getOpt (parseOptionsObject ccFix (some dFix) optsFix "c1").1 "label" =
      JsValue.str "hi" := by
  constructor
  · decide
  · exact (parseOptionsObject_characterization ccFix dFix optsFix "c1"
      (by decide)).2.2.2.1 ⟨"label", "textinput", true⟩ (by decide) rfl rfl

/-- C10 witness at a concrete input: the declared variable field `secret` is
absent from the raw options, so the string `"undefined"` is passed through
the parser. -/
theorem parseOptionsObject_missing_field_witness :
    getOpt (parseOptionsObject ccFix (some dFix) optsFix "c1").1 "secret" =
      JsValue.str (ccFix.parseVariables "c1" "undefined").text :=
  (parseOptionsObject_missing_field ccFix dFix optsFix "c1" ⟨"secret", "textinput", true⟩
    (by decide) (by decide) (by decide)).2 rfl rfl
